import Mathlib

/-!
Verification of the Mandelbrot renderer in `src/main.rs`.

The program contains two escape-time kernels writing 8-bit iteration counts
into a flat row-major buffer:
  * `mandlebrot`       - the scalar kernel (one pixel at a time);
  * `mandlebrot_simd`  - the 8-lane vector kernel (`f32x8`), with per-lane
    predication (`select`) and an early exit when every lane has escaped.

Embedding conventions:
  * `f32` values are embedded as exact rationals (`ℚ`).  Every claim below is
    algebraic or structural, so it is stated over this exact arithmetic; the
    concrete inputs used in witnesses and counterexamples are small integers,
    on which `f32` arithmetic is itself exact.
  * The Rust cast `f32 as usize` truncates toward zero and saturates at 0 for
    negative values: modelled by `ratToNat`.  The cast `f32 as u8` saturates
    into `[0, 255]`: modelled by `ratToU8`.  The cast `usize as u8` wraps
    modulo 256: modelled by `% 256`.
  * The output buffer `Vec<u8>` is modelled as a total function `ℕ → ℕ`;
    a kernel run transforms the buffer, writing with the functional update
    `upd`.  Byte-identity of two buffers for a `w × h` raster is equality at
    every index below `w * h`.
  * The SIMD vectors `f32x8` / `m32x8` are `Fin 8 → ℚ` and `Fin 8 → Bool`.
-/

/-- `ComplexArea` from the source: the rectangular viewport. -/
structure ComplexArea where
  cmin_r : ℚ
  cmax_r : ℚ
  cmin_i : ℚ
  cmax_i : ℚ

/-- `MAX_ITER` from the source. -/
def MAX_ITER : ℕ := 256

/-- Rust `f32 as usize`: truncate toward zero, saturate below at 0
(all indices produced by the program are nonnegative integers). -/
def ratToNat (q : ℚ) : ℕ := (⌊q⌋).toNat

/-- Rust `f32 as u8`: truncate toward zero, saturate into `[0, 255]`. -/
def ratToU8 (q : ℚ) : ℕ := min (⌊q⌋).toNat 255

/-- Functional update of the byte buffer: `image[i] = v`. -/
def upd (f : ℕ → ℕ) (i v : ℕ) : ℕ → ℕ := fun j => if j = i then v else f j

/-! ## The scalar kernel `mandlebrot` -/

/-- State of the scalar kernel's inner loop: `z_r`, `z_i`, `iter`. -/
@[ext]
structure SState where
  z_r : ℚ
  z_i : ℚ
  iter : ℕ
deriving DecidableEq

/-- The scalar kernel's inner loop (`for _ in 1..MAX_ITER` in the source),
fuel-indexed.  Each pass computes `next_z_r = z_r*z_r - z_i*z_i + c_r` and
`next_z_i = z_r*z_i + z_r*z_i + c_i`, commits them to `z_r`, `z_i`, then
breaks if `z_r*z_r + z_i*z_i > 4` and otherwise increments `iter`. -/
def mandlebrotLoop (c_r c_i : ℚ) : ℕ → SState → SState
  | 0, s => s
  | n + 1, s =>
    let next_z_r := s.z_r * s.z_r - s.z_i * s.z_i + c_r
    let next_z_i := s.z_r * s.z_i + s.z_r * s.z_i + c_i
    let abs_square := next_z_r * next_z_r + next_z_i * next_z_i
    if abs_square > 4 then ⟨next_z_r, next_z_i, s.iter⟩
    else mandlebrotLoop c_r c_i n ⟨next_z_r, next_z_i, s.iter + 1⟩

/-- `c_r = cmin_r + (vx * scale_x)` with `vx = x as f32`,
`scale_x = (cmax_r - cmin_r) / width` (both kernels use this formula). -/
def scalar_c_r (a : ComplexArea) (width : ℕ) (x : ℕ) : ℚ :=
  a.cmin_r + (x : ℚ) * ((a.cmax_r - a.cmin_r) / (width : ℚ))

/-- `c_i = cmax_i - y as f32 * scale_y`, `scale_y = (cmax_i - cmin_i) / height`
(both kernels use this formula). -/
def scalar_c_i (a : ComplexArea) (height : ℕ) (y : ℕ) : ℚ :=
  a.cmax_i - (y : ℚ) * ((a.cmax_i - a.cmin_i) / (height : ℚ))

/-- The iteration count the scalar kernel computes for sample point
`(c_r, c_i)`: run the inner loop `MAX_ITER - 1` times from `z = c`, `iter = 0`. -/
def scalarIterVal (c_r c_i : ℚ) : ℕ :=
  (mandlebrotLoop c_r c_i (MAX_ITER - 1) ⟨c_r, c_i, 0⟩).iter

/-- The byte the scalar kernel stores for pixel `(x, y)`:
`iter as u8` (a `usize`-to-`u8` cast wraps modulo 256). -/
def mandlebrotPixel (a : ComplexArea) (width height : ℕ) (x y : ℕ) : ℕ :=
  scalarIterVal (scalar_c_r a width x) (scalar_c_i a height y) % 256

/-- The scalar kernel's buffer index: `(vx + (y * width) as f32) as usize`. -/
def scalarIndex (x y width : ℕ) : ℕ :=
  ratToNat ((x : ℚ) + ((y * width : ℕ) : ℚ))

/-- One row of the scalar kernel: `for x in 0..width`. -/
def scalarRow (a : ComplexArea) (width height y : ℕ) (im : ℕ → ℕ) : ℕ → ℕ :=
  (List.range width).foldl
    (fun im2 x => upd im2 (scalarIndex x y width) (mandlebrotPixel a width height x y)) im

/-- The scalar kernel `mandlebrot`: `for y in 0..height { for x in 0..width { ... } }`. -/
def mandlebrot (a : ComplexArea) (width height : ℕ) (image : ℕ → ℕ) : ℕ → ℕ :=
  (List.range height).foldl (fun im y => scalarRow a width height y im) image

/-! ## The vector kernel `mandlebrot_simd` -/

/-- State of the vector kernel's inner loop: the `f32x8` registers `z_r`,
`z_i`, `iter` and the `m32x8` mask `unfinished`. -/
@[ext]
structure SimdState where
  z_r : Fin 8 → ℚ
  z_i : Fin 8 → ℚ
  unfinished : Fin 8 → Bool
  iter : Fin 8 → ℚ

/-- One pass of the vector kernel's inner loop: compute `next_z_r`, `next_z_i`
for all lanes, commit them only on lanes whose `unfinished` flag is set
(`select`), recompute `abs_square`, set `unfinished = abs_square ≤ 4.0`, and
increment `iter` on lanes whose new flag is set. -/
def simdStep (c_r c_i : Fin 8 → ℚ) (s : SimdState) : SimdState :=
  let next_z_r := fun l => s.z_r l * s.z_r l - s.z_i l * s.z_i l + c_r l
  let next_z_i := fun l => s.z_r l * s.z_i l + s.z_r l * s.z_i l + c_i l
  let z_r := fun l => if s.unfinished l then next_z_r l else s.z_r l
  let z_i := fun l => if s.unfinished l then next_z_i l else s.z_i l
  let abs_square := fun l => z_r l * z_r l + z_i l * z_i l
  let unfinished := fun l => decide (abs_square l ≤ 4)
  let iter := fun l => if unfinished l then s.iter l + 1 else s.iter l
  ⟨z_r, z_i, unfinished, iter⟩

/-- `unfinished.none()`: every lane's flag is false. -/
def allFinished (s : SimdState) : Bool :=
  (List.finRange 8).all fun l => ! s.unfinished l

/-- The vector kernel's inner loop (`for _ in 1..MAX_ITER`), fuel-indexed,
with the source's early exit: `if unfinished.none() { break; }`. -/
def simdLoop (c_r c_i : Fin 8 → ℚ) : ℕ → SimdState → SimdState
  | 0, s => s
  | n + 1, s =>
    let s2 := simdStep c_r c_i s
    if allFinished s2 then s2 else simdLoop c_r c_i n s2

/-- The same loop without the early exit: always runs its full fuel. -/
def simdLoopNB (c_r c_i : Fin 8 → ℚ) : ℕ → SimdState → SimdState
  | 0, s => s
  | n + 1, s => simdLoopNB c_r c_i n (simdStep c_r c_i s)

/-- The initial lane-group state: `z = c`, `unfinished = splat(true)`,
`iter = splat(1.0)`. -/
def simdInit (c_r c_i : Fin 8 → ℚ) : SimdState :=
  ⟨c_r, c_i, fun _ => true, fun _ => 1⟩

/-- The state after the vector kernel's inner loop for one lane group. -/
def simdGroup (c_r c_i : Fin 8 → ℚ) : SimdState :=
  simdLoop c_r c_i (MAX_ITER - 1) (simdInit c_r c_i)

/-- The successive states of the vector kernel's inner loop, break aside:
`simdIterN c_r c_i k` is the state after `k` passes. -/
def simdIterN (c_r c_i : Fin 8 → ℚ) : ℕ → SimdState
  | 0 => simdInit c_r c_i
  | n + 1 => simdStep c_r c_i (simdIterN c_r c_i n)

/-- The vector kernel's per-lane `c_r`:
`cmin_r + (vx * scale_x)` with `vx = splat(x) + {0,1,...,7}`. -/
def simd_c_r (a : ComplexArea) (width : ℕ) (x : ℕ) : Fin 8 → ℚ :=
  fun l => a.cmin_r + ((x : ℚ) + ((l : ℕ) : ℚ)) * ((a.cmax_r - a.cmin_r) / (width : ℚ))

/-- The vector kernel's per-lane `c_i`: `splat(cmax_i - y as f32 * scale_y)`. -/
def simd_c_i (a : ComplexArea) (height : ℕ) (y : ℕ) : Fin 8 → ℚ :=
  fun _ => a.cmax_i - (y : ℚ) * ((a.cmax_i - a.cmin_i) / (height : ℚ))

/-- Reading lane `l` of an `f32x8` register that was written to a slice
(`write_to_slice_unaligned_unchecked` followed by `colors[lane]`). -/
def getIter (s : SimdState) (l : ℕ) : ℚ :=
  if h : l < 8 then s.iter ⟨l, h⟩ else 0

/-- The vector kernel's buffer index for lane `l` of the group at base `x`:
`(vx + splat((y * width) as f32)) as usize`. -/
def simdIndex (x y width : ℕ) (l : ℕ) : ℕ :=
  ratToNat (((x : ℚ) + (l : ℚ)) + ((y * width : ℕ) : ℚ))

/-- The byte the vector kernel stores from group `g`, lane `l` of row `y`. -/
def simdLaneByte (a : ComplexArea) (width height y g l : ℕ) : ℕ :=
  ratToU8 (getIter (simdGroup (simd_c_r a width (8 * g)) (simd_c_i a height y)) l)

/-- The byte the vector kernel stores for pixel `(x, y)` (group `x / 8`,
lane `x % 8`). -/
def simdPixelByte (a : ComplexArea) (width height : ℕ) (x y : ℕ) : ℕ :=
  simdLaneByte a width height y (x / 8) (x % 8)

/-- The lane-scatter at the end of a group: `for lane in 0..8 {
image[indexs[lane] as usize] = colors[lane] as u8 }`. -/
def simdGroupWrite (a : ComplexArea) (width height y g : ℕ) (im : ℕ → ℕ) : ℕ → ℕ :=
  (List.range 8).foldl
    (fun im3 lane => upd im3 (simdIndex (8 * g) y width lane) (simdLaneByte a width height y g lane)) im

/-- One row of the vector kernel: `for x in (0..width).step_by(8)`; `step_by`
visits `⌈width / 8⌉` group bases `x = 8 * g`. -/
def simdRow (a : ComplexArea) (width height y : ℕ) (im : ℕ → ℕ) : ℕ → ℕ :=
  (List.range ((width + 7) / 8)).foldl (fun im2 g => simdGroupWrite a width height y g im2) im

/-- The vector kernel `mandlebrot_simd`. -/
def mandlebrot_simd (a : ComplexArea) (width height : ℕ) (image : ℕ → ℕ) : ℕ → ℕ :=
  (List.range height).foldl (fun im y => simdRow a width height y im) image

/-! ## Per-lane view of the vector loop -/

/-- One lane's slice of the vector state. -/
@[ext]
structure LaneState where
  z_r : ℚ
  z_i : ℚ
  unfinished : Bool
  iter : ℚ
deriving DecidableEq

/-- One lane's slice of `simdStep`: the step acts lane-wise. -/
def laneStep (c_r c_i : ℚ) (s : LaneState) : LaneState :=
  let next_z_r := s.z_r * s.z_r - s.z_i * s.z_i + c_r
  let next_z_i := s.z_r * s.z_i + s.z_r * s.z_i + c_i
  let z_r := if s.unfinished then next_z_r else s.z_r
  let z_i := if s.unfinished then next_z_i else s.z_i
  let abs_square := z_r * z_r + z_i * z_i
  let unfinished := decide (abs_square ≤ 4)
  let iter := if unfinished then s.iter + 1 else s.iter
  ⟨z_r, z_i, unfinished, iter⟩

/-- One lane's slice of `simdLoopNB`. -/
def laneIterN (c_r c_i : ℚ) : ℕ → LaneState → LaneState
  | 0, s => s
  | n + 1, s => laneIterN c_r c_i n (laneStep c_r c_i s)

/-- The lane slice of a `SimdState`. -/
def laneOf (s : SimdState) (l : Fin 8) : LaneState :=
  ⟨s.z_r l, s.z_i l, s.unfinished l, s.iter l⟩

/-! ## Concrete fixtures used in witnesses and counterexamples -/

/-- A width-8 test viewport: on an 8-wide, 1-tall raster, `scale_x = 1` and
row 0 has `c_i = 0`, so pixel `x` samples the integer point `(x - 2, 0)`. -/
def areaA : ComplexArea := ⟨-2, 6, -1, 0⟩

/-- The driver's viewport from `main`: real `-2..1`, imaginary `-1.5..1.5`. -/
def areaB : ComplexArea := ⟨-2, 1, -(3/2), 3/2⟩

/-- An all-zero input buffer. -/
def zeroImage : ℕ → ℕ := fun _ => 0

/-- An all-one input buffer (distinct prior contents for determinism tests). -/
def oneImage : ℕ → ℕ := fun _ => 1

/-! ## Cast and index arithmetic -/

lemma ratToNat_natCast (n : ℕ) : ratToNat ((n : ℕ) : ℚ) = n := by
  simp [ratToNat]

lemma ratToU8_natCast (n : ℕ) : ratToU8 ((n : ℕ) : ℚ) = min n 255 := by
  simp [ratToU8]

lemma scalarIndex_eq (x y width : ℕ) : scalarIndex x y width = y * width + x := by
  have h : ((x : ℚ) + ((y * width : ℕ) : ℚ)) = ((y * width + x : ℕ) : ℚ) := by
    push_cast; ring
  rw [scalarIndex, h, ratToNat_natCast]

lemma simdIndex_eq (x y width l : ℕ) : simdIndex x y width l = y * width + (x + l) := by
  have h : (((x : ℚ) + (l : ℚ)) + ((y * width : ℕ) : ℚ)) = ((y * width + (x + l) : ℕ) : ℚ) := by
    push_cast; ring
  rw [simdIndex, h, ratToNat_natCast]

/-! ## Buffer write machinery -/

/-- A run of `m` consecutive writes at `base, base+1, ..., base+m-1`. -/
def writeSeq (base : ℕ) (v : ℕ → ℕ) (m : ℕ) (im : ℕ → ℕ) : ℕ → ℕ :=
  (List.range m).foldl (fun f k => upd f (base + k) (v k)) im

lemma writeSeq_apply (base : ℕ) (v : ℕ → ℕ) :
    ∀ (m : ℕ) (im : ℕ → ℕ) (j : ℕ),
      writeSeq base v m im j = if base ≤ j ∧ j < base + m then v (j - base) else im j
  | 0, im, j => by
    rw [writeSeq, List.range_zero, List.foldl_nil, if_neg (by omega)]
  | m + 1, im, j => by
    rw [writeSeq, List.range_succ, List.foldl_append, List.foldl_cons, List.foldl_nil]
    have hrec := writeSeq_apply base v m im j
    rw [writeSeq] at hrec
    rw [upd, hrec]
    by_cases h1 : j = base + m
    · rw [if_pos h1, if_pos (by omega)]
      congr 1
      omega
    · rw [if_neg h1]
      by_cases h2 : base ≤ j ∧ j < base + m
      · rw [if_pos h2, if_pos (by omega)]
      · rw [if_neg h2, if_neg (by omega)]

/-- Generic shape of a row-major kernel: folding a per-row writer over all
rows fills index `j < height * width` with the pixel value at
`(j % width, j / width)`. -/
lemma rowsFold_apply (row : ℕ → (ℕ → ℕ) → ℕ → ℕ) (width : ℕ) (pix : ℕ → ℕ → ℕ)
    (hrow : ∀ y im j, row y im j =
      if y * width ≤ j ∧ j < y * width + width then pix (j - y * width) y else im j) :
    ∀ (height : ℕ) (im : ℕ → ℕ) (j : ℕ),
      (List.range height).foldl (fun im2 y => row y im2) im j =
        if j < height * width then pix (j % width) (j / width) else im j
  | 0, im, j => by
    rw [List.range_zero, List.foldl_nil, if_neg (by omega)]
  | h + 1, im, j => by
    rw [List.range_succ, List.foldl_append, List.foldl_cons, List.foldl_nil]
    rw [hrow, rowsFold_apply row width pix hrow h im j]
    have hmul : (h + 1) * width = h * width + width := by ring
    by_cases h1 : h * width ≤ j ∧ j < h * width + width
    · have hdiv : j / width = h ∧ j % width = j - h * width := by
        obtain ⟨r, hr, rfl⟩ : ∃ r, r < width ∧ j = r + h * width :=
          ⟨j - h * width, by omega, by omega⟩
        constructor
        · rw [Nat.add_mul_div_right _ _ (by omega : 0 < width), Nat.div_eq_of_lt hr]
          omega
        · rw [Nat.add_mul_mod_self_right, Nat.mod_eq_of_lt hr]
          omega
      rw [if_pos h1, if_pos (by omega)]
      rw [hdiv.1, hdiv.2]
    · rw [if_neg h1]
      by_cases h2 : j < h * width
      · rw [if_pos h2, if_pos (by omega)]
      · rw [if_neg h2, if_neg (by omega)]

/-! ## Denotation of the scalar kernel -/

lemma scalarRow_eq (a : ComplexArea) (width height y : ℕ) (im : ℕ → ℕ) :
    scalarRow a width height y im =
      writeSeq (y * width) (fun x => mandlebrotPixel a width height x y) width im := by
  unfold scalarRow writeSeq
  congr 1
  funext im2 x
  rw [scalarIndex_eq]

lemma scalarRow_apply (a : ComplexArea) (width height y : ℕ) (im : ℕ → ℕ) (j : ℕ) :
    scalarRow a width height y im j =
      if y * width ≤ j ∧ j < y * width + width
      then mandlebrotPixel a width height (j - y * width) y else im j := by
  rw [scalarRow_eq, writeSeq_apply]

/-- Denotation of the scalar kernel: every in-range index of the output holds
the per-pixel value, independently of the input buffer. -/
lemma mandlebrot_apply (a : ComplexArea) (width height : ℕ) (img : ℕ → ℕ) (j : ℕ)
    (hj : j < width * height) :
    mandlebrot a width height img j =
      mandlebrotPixel a width height (j % width) (j / width) := by
  rw [mandlebrot,
    rowsFold_apply (scalarRow a width height) width
      (fun x y => mandlebrotPixel a width height x y)
      (scalarRow_apply a width height) height img j,
    if_pos (by rwa [Nat.mul_comm width height] at hj)]

/-! ## Denotation of the vector kernel -/

lemma simdGroupWrite_eq (a : ComplexArea) (width height y g : ℕ) (im : ℕ → ℕ) :
    simdGroupWrite a width height y g im =
      writeSeq (y * width + 8 * g) (fun l => simdLaneByte a width height y g l) 8 im := by
  unfold simdGroupWrite writeSeq
  congr 1
  funext im3 lane
  rw [simdIndex_eq]
  have h : y * width + (8 * g + lane) = y * width + 8 * g + lane := by ring
  rw [h]

lemma simdGroupsFold_apply (a : ComplexArea) (width height y : ℕ) :
    ∀ (n : ℕ) (im : ℕ → ℕ) (j : ℕ),
      (List.range n).foldl (fun im2 g => simdGroupWrite a width height y g im2) im j =
        if y * width ≤ j ∧ j < y * width + 8 * n
        then simdLaneByte a width height y ((j - y * width) / 8) ((j - y * width) % 8)
        else im j
  | 0, im, j => by
    rw [List.range_zero, List.foldl_nil, if_neg (by omega)]
  | n + 1, im, j => by
    rw [List.range_succ, List.foldl_append, List.foldl_cons, List.foldl_nil]
    rw [simdGroupWrite_eq, writeSeq_apply,
      simdGroupsFold_apply a width height y n im j]
    by_cases h1 : y * width + 8 * n ≤ j ∧ j < y * width + 8 * n + 8
    · rw [if_pos h1, if_pos (by omega)]
      obtain ⟨r, hr, hj⟩ : ∃ r, r < 8 ∧ j = y * width + 8 * n + r :=
        ⟨j - (y * width + 8 * n), by omega, by omega⟩
      congr 1
      · omega
      · omega
    · rw [if_neg h1]
      by_cases h2 : y * width ≤ j ∧ j < y * width + 8 * n
      · rw [if_pos h2, if_pos (by omega)]
      · rw [if_neg h2, if_neg (by omega)]

lemma simdRow_apply (a : ComplexArea) (width height y : ℕ) (h8 : 8 ∣ width)
    (im : ℕ → ℕ) (j : ℕ) :
    simdRow a width height y im j =
      if y * width ≤ j ∧ j < y * width + width
      then simdPixelByte a width height (j - y * width) y else im j := by
  obtain ⟨n, rfl⟩ := h8
  have hn : (8 * n + 7) / 8 = n := by omega
  rw [simdRow, hn, simdGroupsFold_apply]
  have h8n : y * (8 * n) + 8 * n = y * (8 * n) + 8 * n := rfl
  by_cases h1 : y * (8 * n) ≤ j ∧ j < y * (8 * n) + 8 * n
  · rw [if_pos h1, if_pos (by omega)]
    rfl
  · rw [if_neg h1, if_neg (by omega)]

/-- Denotation of the vector kernel: when the width is divisible by the lane
count, every in-range index of the output holds the per-pixel value,
independently of the input buffer. -/
lemma mandlebrot_simd_apply (a : ComplexArea) (width height : ℕ) (img : ℕ → ℕ)
    (j : ℕ) (h8 : 8 ∣ width) (hj : j < width * height) :
    mandlebrot_simd a width height img j =
      simdPixelByte a width height (j % width) (j / width) := by
  rw [mandlebrot_simd,
    rowsFold_apply (simdRow a width height) width
      (fun x y => simdPixelByte a width height x y)
      (fun y im j => simdRow_apply a width height y h8 im j) height img j,
    if_pos (by rwa [Nat.mul_comm width height] at hj)]

/-! ## The vector loop invariant and the early exit -/

/-- Loop invariant of the vector kernel: a lane whose `unfinished` flag is
down has `|z|² > 4` (its flag was lowered by the escape test, and its `z` has
been frozen ever since). -/
def simdInv (s : SimdState) : Prop :=
  ∀ l, s.unfinished l = false → 4 < s.z_r l * s.z_r l + s.z_i l * s.z_i l

lemma simdInv_init (c_r c_i : Fin 8 → ℚ) : simdInv (simdInit c_r c_i) := by
  intro l h
  simp [simdInit] at h

/-- A finished lane is frozen by one step: its `z`, flag and `iter` are
unchanged. -/
lemma simdStep_frozen (c_r c_i : Fin 8 → ℚ) (s : SimdState) (l : Fin 8)
    (h : s.unfinished l = false)
    (habs : 4 < s.z_r l * s.z_r l + s.z_i l * s.z_i l) :
    (simdStep c_r c_i s).z_r l = s.z_r l ∧
    (simdStep c_r c_i s).z_i l = s.z_i l ∧
    (simdStep c_r c_i s).unfinished l = false ∧
    (simdStep c_r c_i s).iter l = s.iter l := by
  have hz_r : (simdStep c_r c_i s).z_r l = s.z_r l := by
    simp [simdStep, h]
  have hz_i : (simdStep c_r c_i s).z_i l = s.z_i l := by
    simp [simdStep, h]
  have hu : (simdStep c_r c_i s).unfinished l = false := by
    simp only [simdStep, h, Bool.false_eq_true, if_false, decide_eq_false_iff_not, not_le]
    exact habs
  have hi : (simdStep c_r c_i s).iter l = s.iter l := by
    have : (simdStep c_r c_i s).iter l =
        if (simdStep c_r c_i s).unfinished l then s.iter l + 1 else s.iter l := by
      simp [simdStep]
    rw [this, hu]
    simp
  exact ⟨hz_r, hz_i, hu, hi⟩

lemma simdInv_step (c_r c_i : Fin 8 → ℚ) (s : SimdState) (hs : simdInv s) :
    simdInv (simdStep c_r c_i s) := by
  intro l h
  by_cases hu : s.unfinished l = false
  · obtain ⟨h1, h2, _, _⟩ := simdStep_frozen c_r c_i s l hu (hs l hu)
    rw [h1, h2]
    exact hs l hu
  · have hu' : s.unfinished l = true := by
      cases hval : s.unfinished l
      · exact absurd hval hu
      · rfl
    have hdef : (simdStep c_r c_i s).unfinished l =
        decide ((simdStep c_r c_i s).z_r l * (simdStep c_r c_i s).z_r l +
          (simdStep c_r c_i s).z_i l * (simdStep c_r c_i s).z_i l ≤ 4) := by
      simp [simdStep]
    rw [hdef] at h
    have := of_decide_eq_false h
    linarith [not_le.mp this]

lemma simdInv_iterN (c_r c_i : Fin 8 → ℚ) : ∀ n, simdInv (simdIterN c_r c_i n)
  | 0 => simdInv_init c_r c_i
  | n + 1 => simdInv_step c_r c_i _ (simdInv_iterN c_r c_i n)

lemma allFinished_iff (s : SimdState) :
    allFinished s = true ↔ ∀ l, s.unfinished l = false := by
  simp [allFinished, List.all_eq_true, List.mem_finRange]

/-- Once every lane is finished (and the invariant holds), one step of the
vector loop is the identity. -/
lemma simdStep_fix (c_r c_i : Fin 8 → ℚ) (s : SimdState) (hs : simdInv s)
    (hall : allFinished s = true) : simdStep c_r c_i s = s := by
  rw [allFinished_iff] at hall
  ext l
  · exact (simdStep_frozen c_r c_i s l (hall l) (hs l (hall l))).1
  · exact (simdStep_frozen c_r c_i s l (hall l) (hs l (hall l))).2.1
  · rw [(simdStep_frozen c_r c_i s l (hall l) (hs l (hall l))).2.2.1, hall l]
  · exact (simdStep_frozen c_r c_i s l (hall l) (hs l (hall l))).2.2.2

lemma simdLoopNB_fix (c_r c_i : Fin 8 → ℚ) :
    ∀ (n : ℕ) (s : SimdState), simdInv s → allFinished s = true →
      simdLoopNB c_r c_i n s = s
  | 0, s, _, _ => rfl
  | n + 1, s, hs, hall => by
    rw [simdLoopNB, simdStep_fix c_r c_i s hs hall,
      simdLoopNB_fix c_r c_i n s hs hall]

/-- The early exit of the vector loop does not change the final state: from
any state satisfying the invariant, the loop with break computes the same
state as running the full fuel. -/
lemma simdLoop_eq_NB (c_r c_i : Fin 8 → ℚ) :
    ∀ (n : ℕ) (s : SimdState), simdInv s →
      simdLoop c_r c_i n s = simdLoopNB c_r c_i n s
  | 0, s, _ => rfl
  | n + 1, s, hs => by
    rw [simdLoop, simdLoopNB]
    by_cases hall : allFinished (simdStep c_r c_i s) = true
    · rw [if_pos hall,
        simdLoopNB_fix c_r c_i n (simdStep c_r c_i s) (simdInv_step c_r c_i s hs) hall]
    · rw [if_neg hall, simdLoop_eq_NB c_r c_i n _ (simdInv_step c_r c_i s hs)]

/-! ## Per-lane decomposition of the vector loop -/

lemma laneOf_step (c_r c_i : Fin 8 → ℚ) (s : SimdState) (l : Fin 8) :
    laneOf (simdStep c_r c_i s) l = laneStep (c_r l) (c_i l) (laneOf s l) := by
  simp only [laneOf, simdStep, laneStep]

lemma laneOf_loopNB (c_r c_i : Fin 8 → ℚ) :
    ∀ (n : ℕ) (s : SimdState) (l : Fin 8),
      laneOf (simdLoopNB c_r c_i n s) l = laneIterN (c_r l) (c_i l) n (laneOf s l)
  | 0, s, l => rfl
  | n + 1, s, l => by
    rw [simdLoopNB, laneIterN, laneOf_loopNB c_r c_i n _ l, laneOf_step]

lemma laneOf_init (c_r c_i : Fin 8 → ℚ) (l : Fin 8) :
    laneOf (simdInit c_r c_i) l = ⟨c_r l, c_i l, true, 1⟩ := rfl

/-- A finished lane with `|z|² > 4` is a fixed point of the per-lane step. -/
lemma laneStep_frozen (c_r c_i : ℚ) (s : LaneState) (h : s.unfinished = false)
    (habs : 4 < s.z_r * s.z_r + s.z_i * s.z_i) : laneStep c_r c_i s = s := by
  have hz_r : (if s.unfinished then s.z_r * s.z_r - s.z_i * s.z_i + c_r else s.z_r) = s.z_r := by
    rw [h]; simp
  have hz_i : (if s.unfinished then s.z_r * s.z_i + s.z_r * s.z_i + c_i else s.z_i) = s.z_i := by
    rw [h]; simp
  ext
  · simp only [laneStep, hz_r]
  · simp only [laneStep, hz_i]
  · simp only [laneStep, hz_r, hz_i, h, decide_eq_false_iff_not, not_le]
    exact habs
  · simp only [laneStep, hz_r, hz_i]
    rw [if_neg]
    simp only [decide_eq_true_eq, not_le]
    exact habs

lemma laneIterN_frozen (c_r c_i : ℚ) :
    ∀ (n : ℕ) (s : LaneState), s.unfinished = false →
      4 < s.z_r * s.z_r + s.z_i * s.z_i → laneIterN c_r c_i n s = s
  | 0, s, _, _ => rfl
  | n + 1, s, h, habs => by
    rw [laneIterN, laneStep_frozen c_r c_i s h habs,
      laneIterN_frozen c_r c_i n s h habs]

/-! ## Correspondence between the per-lane loop and the scalar loop -/

/-- The heart of the scalar/vector comparison: starting from the same `z` with
the vector lane's counter one ahead of the scalar counter (and the lane still
unfinished), after any number of steps the lane counter is exactly the scalar
counter plus one. -/
lemma laneIterN_eq_scalar (c_r c_i : ℚ) :
    ∀ (n : ℕ) (z_r z_i : ℚ) (m : ℕ),
      (laneIterN c_r c_i n ⟨z_r, z_i, true, ((m + 1 : ℕ) : ℚ)⟩).iter =
        (((mandlebrotLoop c_r c_i n ⟨z_r, z_i, m⟩).iter + 1 : ℕ) : ℚ)
  | 0, z_r, z_i, m => by simp [laneIterN, mandlebrotLoop]
  | n + 1, z_r, z_i, m => by
    rw [laneIterN, mandlebrotLoop]
    dsimp only
    have hstep : laneStep c_r c_i ⟨z_r, z_i, true, ((m + 1 : ℕ) : ℚ)⟩ =
        ⟨z_r * z_r - z_i * z_i + c_r, z_r * z_i + z_r * z_i + c_i,
          decide ((z_r * z_r - z_i * z_i + c_r) * (z_r * z_r - z_i * z_i + c_r) +
            (z_r * z_i + z_r * z_i + c_i) * (z_r * z_i + z_r * z_i + c_i) ≤ 4),
          if ((z_r * z_r - z_i * z_i + c_r) * (z_r * z_r - z_i * z_i + c_r) +
            (z_r * z_i + z_r * z_i + c_i) * (z_r * z_i + z_r * z_i + c_i) ≤ 4)
          then ((m + 1 : ℕ) : ℚ) + 1 else ((m + 1 : ℕ) : ℚ)⟩ := by
      simp only [laneStep, if_true, decide_eq_true_eq]
    rw [hstep]
    by_cases habs : (z_r * z_r - z_i * z_i + c_r) * (z_r * z_r - z_i * z_i + c_r) +
        (z_r * z_i + z_r * z_i + c_i) * (z_r * z_i + z_r * z_i + c_i) ≤ 4
    · rw [if_neg (not_lt.mpr habs), if_pos habs, decide_eq_true habs]
      have harg : ((m + 1 : ℕ) : ℚ) + 1 = ((m + 1 + 1 : ℕ) : ℚ) := by push_cast; ring
      rw [harg]
      exact laneIterN_eq_scalar c_r c_i n _ _ (m + 1)
    · rw [if_pos (not_le.mp habs), if_neg habs, decide_eq_false habs]
      rw [laneIterN_frozen c_r c_i n _ rfl (by dsimp only; linarith [not_le.mp habs])]

lemma mandlebrotLoop_iter_le (c_r c_i : ℚ) :
    ∀ (n : ℕ) (s : SState), (mandlebrotLoop c_r c_i n s).iter ≤ s.iter + n
  | 0, s => le_refl _
  | n + 1, s => by
    simp only [mandlebrotLoop]
    by_cases habs : (s.z_r * s.z_r - s.z_i * s.z_i + c_r) * (s.z_r * s.z_r - s.z_i * s.z_i + c_r) +
        (s.z_r * s.z_i + s.z_r * s.z_i + c_i) * (s.z_r * s.z_i + s.z_r * s.z_i + c_i) > 4
    · rw [if_pos habs]
      dsimp only
      omega
    · rw [if_neg habs]
      have := mandlebrotLoop_iter_le c_r c_i n
        ⟨s.z_r * s.z_r - s.z_i * s.z_i + c_r, s.z_r * s.z_i + s.z_r * s.z_i + c_i, s.iter + 1⟩
      dsimp only at this
      omega

lemma scalarIterVal_le (c_r c_i : ℚ) : scalarIterVal c_r c_i ≤ 255 := by
  have := mandlebrotLoop_iter_le c_r c_i (MAX_ITER - 1) ⟨c_r, c_i, 0⟩
  rw [scalarIterVal]
  simpa [MAX_ITER] using this

/-- The `usize`-to-`u8` wrap never kicks in: the scalar count fits in a byte. -/
lemma mandlebrotPixel_eq_iterVal (a : ComplexArea) (width height x y : ℕ) :
    mandlebrotPixel a width height x y =
      scalarIterVal (scalar_c_r a width x) (scalar_c_i a height y) := by
  rw [mandlebrotPixel, Nat.mod_eq_of_lt]
  have := scalarIterVal_le (scalar_c_r a width x) (scalar_c_i a height y)
  omega

/-- The vector kernel's lane coordinate for the lane covering pixel `x`
is the scalar kernel's coordinate for `x`. -/
lemma simd_c_r_lane (a : ComplexArea) (width x : ℕ) (h : x % 8 < 8) :
    simd_c_r a width (8 * (x / 8)) ⟨x % 8, h⟩ = scalar_c_r a width x := by
  rw [simd_c_r, scalar_c_r]
  have hx : 8 * (x / 8) + x % 8 = x := Nat.div_add_mod x 8
  have hcast : ((8 * (x / 8) : ℕ) : ℚ) + ((x % 8 : ℕ) : ℚ) = (x : ℚ) := by
    rw [← Nat.cast_add, hx]
  dsimp only
  rw [hcast]

/-- The lane counter the vector kernel ends with, for the lane covering pixel
`(x, y)`: exactly the scalar kernel's count plus one (as an `f32`). -/
lemma simdLaneIter_eq (a : ComplexArea) (width height x y : ℕ) :
    getIter (simdGroup (simd_c_r a width (8 * (x / 8))) (simd_c_i a height y)) (x % 8) =
      ((scalarIterVal (scalar_c_r a width x) (scalar_c_i a height y) + 1 : ℕ) : ℚ) := by
  have h8 : x % 8 < 8 := Nat.mod_lt x (by omega)
  rw [getIter, dif_pos h8]
  rw [simdGroup, simdLoop_eq_NB (simd_c_r a width (8 * (x / 8))) (simd_c_i a height y)
    (MAX_ITER - 1) _ (simdInv_init _ _)]
  have hlane : (simdLoopNB (simd_c_r a width (8 * (x / 8))) (simd_c_i a height y)
      (MAX_ITER - 1)
      (simdInit (simd_c_r a width (8 * (x / 8))) (simd_c_i a height y))).iter ⟨x % 8, h8⟩ =
      (laneIterN (simd_c_r a width (8 * (x / 8)) ⟨x % 8, h8⟩)
        (simd_c_i a height y ⟨x % 8, h8⟩) (MAX_ITER - 1)
        ⟨simd_c_r a width (8 * (x / 8)) ⟨x % 8, h8⟩,
         simd_c_i a height y ⟨x % 8, h8⟩, true, 1⟩).iter := by
    have := laneOf_loopNB (simd_c_r a width (8 * (x / 8))) (simd_c_i a height y)
      (MAX_ITER - 1) (simdInit (simd_c_r a width (8 * (x / 8))) (simd_c_i a height y))
      ⟨x % 8, h8⟩
    rw [laneOf_init] at this
    exact congrArg LaneState.iter this
  rw [hlane, simd_c_r_lane a width x h8]
  have hci : simd_c_i a height y ⟨x % 8, h8⟩ = scalar_c_i a height y := rfl
  rw [hci]
  have hone : (1 : ℚ) = ((0 + 1 : ℕ) : ℚ) := by norm_num
  rw [hone, laneIterN_eq_scalar]
  rw [scalarIterVal]

/-- Pointwise scalar/vector relation: the byte the vector kernel stores is
the saturating successor of the byte the scalar kernel stores. -/
lemma simdPixelByte_eq (a : ComplexArea) (width height x y : ℕ) :
    simdPixelByte a width height x y = min (mandlebrotPixel a width height x y + 1) 255 := by
  rw [simdPixelByte, simdLaneByte, simdLaneIter_eq, ratToU8_natCast,
    mandlebrotPixel_eq_iterVal]

/-! ## Remaining helper lemmas -/

/-- Freezing along the loop's iteration states: once a lane's flag is down at
pass `k`, every later pass leaves that lane untouched. -/
lemma simdIterN_frozen (c_r c_i : Fin 8 → ℚ) (k : ℕ) (l : Fin 8)
    (h : (simdIterN c_r c_i k).unfinished l = false) :
    ∀ d, (simdIterN c_r c_i (k + d)).unfinished l = false ∧
      (simdIterN c_r c_i (k + d)).z_r l = (simdIterN c_r c_i k).z_r l ∧
      (simdIterN c_r c_i (k + d)).z_i l = (simdIterN c_r c_i k).z_i l ∧
      (simdIterN c_r c_i (k + d)).iter l = (simdIterN c_r c_i k).iter l
  | 0 => ⟨h, rfl, rfl, rfl⟩
  | d + 1 => by
    obtain ⟨hu, hzr, hzi, hit⟩ := simdIterN_frozen c_r c_i k l h d
    have habs : 4 < (simdIterN c_r c_i (k + d)).z_r l * (simdIterN c_r c_i (k + d)).z_r l +
        (simdIterN c_r c_i (k + d)).z_i l * (simdIterN c_r c_i (k + d)).z_i l :=
      simdInv_iterN c_r c_i (k + d) l hu
    have hfro := simdStep_frozen c_r c_i (simdIterN c_r c_i (k + d)) l hu habs
    have hstep : simdIterN c_r c_i (k + (d + 1)) =
        simdStep c_r c_i (simdIterN c_r c_i (k + d)) := rfl
    rw [hstep]
    exact ⟨hfro.2.2.1, by rw [hfro.1, hzr], by rw [hfro.2.1, hzi], by rw [hfro.2.2.2, hit]⟩

lemma pixIndex_lt {x y width height : ℕ} (hx : x < width) (hy : y < height) :
    y * width + x < width * height :=
  calc y * width + x < y * width + width := by omega
    _ = (y + 1) * width := by ring
    _ ≤ height * width := Nat.mul_le_mul_right width hy
    _ = width * height := Nat.mul_comm height width

lemma pixIndex_mod (x y width : ℕ) (hx : x < width) : (y * width + x) % width = x := by
  rw [Nat.add_comm, Nat.add_mul_mod_self_right, Nat.mod_eq_of_lt hx]

lemma pixIndex_div (x y width : ℕ) (hx : x < width) : (y * width + x) / width = y := by
  rw [Nat.add_comm, Nat.add_mul_div_right _ _ (by omega : 0 < width), Nat.div_eq_of_lt hx]
  omega

/-- The fixed point `(0, 0)` of the recurrence: the scalar loop never escapes
and increments its counter on every pass. -/
lemma mandlebrotLoop_zero : ∀ (n m : ℕ),
    mandlebrotLoop 0 0 n ⟨0, 0, m⟩ = ⟨0, 0, m + n⟩
  | 0, m => by simp [mandlebrotLoop]
  | n + 1, m => by
    rw [mandlebrotLoop]
    dsimp only
    rw [if_neg (by norm_num)]
    have h0 : ((0 : ℚ) * 0 - 0 * 0 + 0) = 0 := by norm_num
    have h1 : ((0 : ℚ) * 0 + 0 * 0 + 0) = 0 := by norm_num
    rw [h0, h1, mandlebrotLoop_zero n (m + 1)]
    congr 1
    omega

lemma scalarIterVal_zero : scalarIterVal 0 0 = 255 := by
  rw [scalarIterVal, show MAX_ITER - 1 = 255 from rfl, mandlebrotLoop_zero]

lemma scalarIterVal_two : scalarIterVal 2 0 = 0 := by
  rw [scalarIterVal, show MAX_ITER - 1 = 254 + 1 from rfl, mandlebrotLoop]
  dsimp only
  rw [if_pos (by norm_num)]

lemma scalarIterVal_one : scalarIterVal 1 0 = 1 := by
  rw [scalarIterVal, show MAX_ITER - 1 = (253 + 1) + 1 from rfl, mandlebrotLoop]
  dsimp only
  rw [if_neg (by norm_num)]
  have h0 : ((1 : ℚ) * 1 - 0 * 0 + 1) = 2 := by norm_num
  have h1 : ((1 : ℚ) * 0 + 1 * 0 + 0) = 0 := by norm_num
  rw [h0, h1, mandlebrotLoop]
  dsimp only
  rw [if_pos (by norm_num)]

/-! ## The claims -/

/-- C1 (counterexample): the claim that the scalar kernel and the vector
kernel produce byte-identical iteration buffers is false: on the viewport
`areaA` with an 8x1 raster (width divisible by the lane width 8), the two
kernels disagree at index 3 (pixel (3,0), sample point (1,0)): the vector
kernel stores 2 while the scalar kernel stores 1. -/
theorem C1_counterexample :
    mandlebrot_simd areaA 8 1 zeroImage 3 ≠ mandlebrot areaA 8 1 zeroImage 3 := by
  rw [mandlebrot_simd_apply areaA 8 1 zeroImage 3 (by norm_num) (by norm_num),
    mandlebrot_apply areaA 8 1 zeroImage 3 (by norm_num)]
  have hm : (3 : ℕ) % 8 = 3 := by norm_num
  have hd : (3 : ℕ) / 8 = 0 := by norm_num
  rw [hm, hd, simdPixelByte_eq, mandlebrotPixel_eq_iterVal]
  have hcr : scalar_c_r areaA 8 3 = 1 := by norm_num [scalar_c_r, areaA]
  have hci : scalar_c_i areaA 1 0 = 0 := by norm_num [scalar_c_i, areaA]
  rw [hcr, hci, scalarIterVal_one]
  norm_num

/-- C1 (amended): for every viewport and every raster whose width is divisible
by the lane width 8, running the two kernels (from any prior buffer contents)
produces buffers that agree up to the vector kernel's documented off-by-one:
at every in-range index, the vector byte is `min(scalar byte + 1, 255)`; the
buffers are not byte-identical. -/
theorem C1_theorem (a : ComplexArea) (width height : ℕ) (f g : ℕ → ℕ) (j : ℕ)
    (h8 : 8 ∣ width) (hj : j < width * height) :
    mandlebrot_simd a width height f j = min (mandlebrot a width height g j + 1) 255 := by
  rw [mandlebrot_simd_apply a width height f j h8 hj,
    mandlebrot_apply a width height g j hj, simdPixelByte_eq]

/-- C1 witness: the amended relation holds concretely at index 5 of an 8x1
render of `areaA`. -/
theorem C1_witness :
    ((8 : ℕ) ∣ 8 ∧ 5 < 8 * 1) ∧
      mandlebrot_simd areaA 8 1 zeroImage 5 = min (mandlebrot areaA 8 1 oneImage 5 + 1) 255 :=
  ⟨⟨by norm_num, by norm_num⟩,
    C1_theorem areaA 8 1 zeroImage oneImage 5 (by norm_num) (by norm_num)⟩

/-- C2: for a pixel whose sample point is `c_r = 2`, `c_i = 0` (escape on the
very first step), the scalar kernel stores iteration count 0 at that pixel and
the vector kernel (when the width is divisible by 8) stores 1. -/
theorem C2_theorem (a : ComplexArea) (width height : ℕ) (f g : ℕ → ℕ) (x y : ℕ)
    (hx : x < width) (hy : y < height)
    (hcr : scalar_c_r a width x = 2) (hci : scalar_c_i a height y = 0) :
    mandlebrot a width height f (y * width + x) = 0 ∧
      (8 ∣ width → mandlebrot_simd a width height g (y * width + x) = 1) := by
  have hj := pixIndex_lt hx hy
  have hm := pixIndex_mod x y width hx
  have hd := pixIndex_div x y width hx
  constructor
  · rw [mandlebrot_apply a width height f _ hj, hm, hd, mandlebrotPixel_eq_iterVal,
      hcr, hci, scalarIterVal_two]
  · intro h8
    rw [mandlebrot_simd_apply a width height g _ h8 hj, hm, hd, simdPixelByte_eq,
      mandlebrotPixel_eq_iterVal, hcr, hci, scalarIterVal_two]
    norm_num

/-- C2 witness: on `areaA` with an 8x1 raster, pixel (4,0) samples `(2,0)`;
the scalar kernel stores 0 there, the vector kernel stores 1. -/
theorem C2_witness :
    (4 < 8 ∧ 0 < 1 ∧ scalar_c_r areaA 8 4 = 2 ∧ scalar_c_i areaA 1 0 = 0) ∧
      (mandlebrot areaA 8 1 zeroImage (0 * 8 + 4) = 0 ∧
        (8 ∣ 8 → mandlebrot_simd areaA 8 1 oneImage (0 * 8 + 4) = 1)) :=
  ⟨⟨by norm_num, by norm_num, by norm_num [scalar_c_r, areaA],
      by norm_num [scalar_c_i, areaA]⟩,
    C2_theorem areaA 8 1 zeroImage oneImage 4 0 (by norm_num) (by norm_num)
      (by norm_num [scalar_c_r, areaA]) (by norm_num [scalar_c_i, areaA])⟩

/-- C3: for a pixel whose sample point is `c_r = 0`, `c_i = 0` (never
escapes), the stored count is `MAX_ITER - 1 = 255` under both kernels; for
the vector kernel the lane counter itself reaches 256 and is reduced to 255
by the saturating f32-to-u8 cast at store time. -/
theorem C3_theorem (a : ComplexArea) (width height : ℕ) (f g : ℕ → ℕ) (x y : ℕ)
    (hx : x < width) (hy : y < height)
    (hcr : scalar_c_r a width x = 0) (hci : scalar_c_i a height y = 0) :
    mandlebrot a width height f (y * width + x) = 255 ∧
      (8 ∣ width → mandlebrot_simd a width height g (y * width + x) = 255) ∧
      getIter (simdGroup (simd_c_r a width (8 * (x / 8))) (simd_c_i a height y))
        (x % 8) = 256 := by
  have hj := pixIndex_lt hx hy
  have hm := pixIndex_mod x y width hx
  have hd := pixIndex_div x y width hx
  refine ⟨?_, ?_, ?_⟩
  · rw [mandlebrot_apply a width height f _ hj, hm, hd, mandlebrotPixel_eq_iterVal,
      hcr, hci, scalarIterVal_zero]
  · intro h8
    rw [mandlebrot_simd_apply a width height g _ h8 hj, hm, hd, simdPixelByte_eq,
      mandlebrotPixel_eq_iterVal, hcr, hci, scalarIterVal_zero]
    norm_num
  · rw [simdLaneIter_eq, hcr, hci, scalarIterVal_zero]
    norm_num

/-- C3 witness: on `areaA` with an 8x1 raster, pixel (2,0) samples `(0,0)`;
both kernels store 255 there and the vector lane counter reaches 256. -/
theorem C3_witness :
    (2 < 8 ∧ 0 < 1 ∧ scalar_c_r areaA 8 2 = 0 ∧ scalar_c_i areaA 1 0 = 0) ∧
      (mandlebrot areaA 8 1 oneImage (0 * 8 + 2) = 255 ∧
        (8 ∣ 8 → mandlebrot_simd areaA 8 1 zeroImage (0 * 8 + 2) = 255) ∧
        getIter (simdGroup (simd_c_r areaA 8 (8 * (2 / 8))) (simd_c_i areaA 1 0))
          (2 % 8) = 256) :=
  ⟨⟨by norm_num, by norm_num, by norm_num [scalar_c_r, areaA],
      by norm_num [scalar_c_i, areaA]⟩,
    C3_theorem areaA 8 1 oneImage zeroImage 2 0 (by norm_num) (by norm_num)
      (by norm_num [scalar_c_r, areaA]) (by norm_num [scalar_c_i, areaA])⟩

/-- C4 (counterexample): the claim says that on an escaping step the scalar
loop stops with `z_r`, `z_i` still holding their pre-step values.  At sample
point `(2,0)` the loop stops on the first pass with `iter = 0` (that part is
right), but `z_r` holds 6, not the pre-step value 2: the escaping step's `z`
update is committed before the test. -/
theorem C4_counterexample :
    (mandlebrotLoop 2 0 (MAX_ITER - 1) ⟨2, 0, 0⟩).iter = 0 ∧
      (mandlebrotLoop 2 0 (MAX_ITER - 1) ⟨2, 0, 0⟩).z_r ≠ 2 := by
  rw [show MAX_ITER - 1 = 254 + 1 from rfl, mandlebrotLoop]
  dsimp only
  rw [if_pos (by norm_num)]
  constructor
  · rfl
  · dsimp only
    norm_num

/-- C4 (amended): in the scalar kernel's inner loop, for every pixel and every
step: the newly computed `z` values are always committed; if the new
`|z|² = next_z_r² + next_z_i²` exceeds 4 the loop then stops with `iter` not
incremented for that step (and `z_r`, `z_i` holding the new values), otherwise
`iter` is incremented by 1 and the loop continues. -/
theorem C4_theorem (c_r c_i : ℚ) (n : ℕ) (s : SState) :
    ((s.z_r * s.z_r - s.z_i * s.z_i + c_r) * (s.z_r * s.z_r - s.z_i * s.z_i + c_r) +
        (s.z_r * s.z_i + s.z_r * s.z_i + c_i) * (s.z_r * s.z_i + s.z_r * s.z_i + c_i) > 4 →
      mandlebrotLoop c_r c_i (n + 1) s =
        ⟨s.z_r * s.z_r - s.z_i * s.z_i + c_r, s.z_r * s.z_i + s.z_r * s.z_i + c_i, s.iter⟩) ∧
    (¬((s.z_r * s.z_r - s.z_i * s.z_i + c_r) * (s.z_r * s.z_r - s.z_i * s.z_i + c_r) +
        (s.z_r * s.z_i + s.z_r * s.z_i + c_i) * (s.z_r * s.z_i + s.z_r * s.z_i + c_i) > 4) →
      mandlebrotLoop c_r c_i (n + 1) s =
        mandlebrotLoop c_r c_i n
          ⟨s.z_r * s.z_r - s.z_i * s.z_i + c_r, s.z_r * s.z_i + s.z_r * s.z_i + c_i,
            s.iter + 1⟩) := by
  constructor
  · intro h
    simp only [mandlebrotLoop]
    rw [if_pos h]
  · intro h
    simp only [mandlebrotLoop]
    rw [if_neg h]

/-- C4 witness: the escaping branch of the amended step rule, instantiated at
`c = (2,0)`, `z = (2,0)`, fuel 255: the loop returns `z = (6,0)`, `iter = 0`. -/
theorem C4_witness :
    mandlebrotLoop 2 0 (254 + 1) ⟨2, 0, 0⟩ = ⟨6, 0, 0⟩ := by
  have h := (C4_theorem 2 0 254 ⟨2, 0, 0⟩).1 (by norm_num)
  rw [h]
  have h0 : ((2 : ℚ) * 2 - 0 * 0 + 2) = 6 := by norm_num
  have h1 : ((2 : ℚ) * 0 + 2 * 0 + 0) = 0 := by norm_num
  rw [h0, h1]

/-- C5: for every lane group, the vector kernel's early exit (`break` as soon
as every lane's unfinished flag is false) produces exactly the same final
state - in particular the same per-lane `iter` values - as running the loop
for the full `MAX_ITER - 1` passes without the break. -/
theorem C5_theorem (c_r c_i : Fin 8 → ℚ) :
    simdLoop c_r c_i (MAX_ITER - 1) (simdInit c_r c_i) =
      simdLoopNB c_r c_i (MAX_ITER - 1) (simdInit c_r c_i) :=
  simdLoop_eq_NB c_r c_i (MAX_ITER - 1) (simdInit c_r c_i) (simdInv_init c_r c_i)

/-- C6: both kernels map a pixel `(x, y)` to the same sample point, computed
as `c_r = cmin_r + x * ((cmax_r - cmin_r) / width)` and
`c_i = cmax_i - y * ((cmax_i - cmin_i) / height)`: lane `l` of the vector
kernel's group at base `8 * g` computes exactly the scalar kernel's `c_r` for
pixel `x = 8 * g + l`, and the same `c_i` for row `y`. -/
theorem C6_theorem (a : ComplexArea) (width height x y g : ℕ) (l : Fin 8)
    (hx : x = 8 * g + (l : ℕ)) :
    simd_c_r a width (8 * g) l = scalar_c_r a width x ∧
      simd_c_i a height y l = scalar_c_i a height y := by
  constructor
  · rw [simd_c_r, scalar_c_r, hx]
    push_cast
    ring
  · rfl

/-- C6 witness: on the driver's viewport with width 16, lane 5 of the group
at base 8 in row 2 matches the scalar mapping of pixel (13, 2). -/
theorem C6_witness :
    (13 = 8 * 1 + ((5 : Fin 8) : ℕ)) ∧
      (simd_c_r areaB 16 (8 * 1) 5 = scalar_c_r areaB 16 13 ∧
        simd_c_i areaB 9 2 5 = scalar_c_i areaB 9 2) :=
  ⟨by decide, C6_theorem areaB 16 9 13 2 1 5 (by decide)⟩

/-- C7: both kernels are deterministic and insensitive to the output buffer's
prior contents: for identical inputs, every in-range index of the result is
identical whatever the two input buffers were (for the vector kernel, when
the width is divisible by 8). -/
theorem C7_theorem (a : ComplexArea) (width height : ℕ) (f g : ℕ → ℕ) (j : ℕ)
    (hj : j < width * height) :
    mandlebrot a width height f j = mandlebrot a width height g j ∧
      (8 ∣ width → mandlebrot_simd a width height f j = mandlebrot_simd a width height g j) := by
  constructor
  · rw [mandlebrot_apply a width height f j hj, mandlebrot_apply a width height g j hj]
  · intro h8
    rw [mandlebrot_simd_apply a width height f j h8 hj,
      mandlebrot_simd_apply a width height g j h8 hj]

/-- C7 witness: on an 8x2 render of `areaA`, index 9 is identical whether the
kernels start from the all-zero or the all-one buffer. -/
theorem C7_witness :
    (9 < 8 * 2) ∧
      (mandlebrot areaA 8 2 zeroImage 9 = mandlebrot areaA 8 2 oneImage 9 ∧
        (8 ∣ 8 → mandlebrot_simd areaA 8 2 zeroImage 9 = mandlebrot_simd areaA 8 2 oneImage 9)) :=
  ⟨by norm_num, C7_theorem areaA 8 2 zeroImage oneImage 9 (by norm_num)⟩

/-- C8: the vector kernel's unfinished mask is monotone per lane: along the
loop's iteration states, once a lane's flag is false at pass `k`, it is false
at every later pass `j`, and that lane's `z_r`, `z_i` and `iter` never change
again. -/
theorem C8_theorem (c_r c_i : Fin 8 → ℚ) (k j : ℕ) (l : Fin 8) (hkj : k ≤ j)
    (h : (simdIterN c_r c_i k).unfinished l = false) :
    (simdIterN c_r c_i j).unfinished l = false ∧
      (simdIterN c_r c_i j).z_r l = (simdIterN c_r c_i k).z_r l ∧
      (simdIterN c_r c_i j).z_i l = (simdIterN c_r c_i k).z_i l ∧
      (simdIterN c_r c_i j).iter l = (simdIterN c_r c_i k).iter l := by
  obtain ⟨d, rfl⟩ := Nat.exists_eq_add_of_le hkj
  exact simdIterN_frozen c_r c_i k l h d

/-- C8 witness: a lane group with every lane at `c = (3, 0)` escapes on pass
1; at pass 2 lane 0's flag is still false and its `iter` is unchanged. -/
theorem C8_witness :
    ((1 : ℕ) ≤ 2 ∧ (simdIterN (fun _ => (3 : ℚ)) (fun _ => 0) 1).unfinished 0 = false) ∧
      ((simdIterN (fun _ => (3 : ℚ)) (fun _ => 0) 2).unfinished 0 = false ∧
        (simdIterN (fun _ => (3 : ℚ)) (fun _ => 0) 2).z_r 0 =
          (simdIterN (fun _ => (3 : ℚ)) (fun _ => 0) 1).z_r 0 ∧
        (simdIterN (fun _ => (3 : ℚ)) (fun _ => 0) 2).z_i 0 =
          (simdIterN (fun _ => (3 : ℚ)) (fun _ => 0) 1).z_i 0 ∧
        (simdIterN (fun _ => (3 : ℚ)) (fun _ => 0) 2).iter 0 =
          (simdIterN (fun _ => (3 : ℚ)) (fun _ => 0) 1).iter 0) := by
  have hu : (simdIterN (fun _ => (3 : ℚ)) (fun _ => 0) 1).unfinished 0 = false := by
    show (simdStep _ _ (simdInit _ _)).unfinished 0 = false
    simp only [simdStep, simdInit, if_true, decide_eq_false_iff_not, not_le]
    norm_num
  exact ⟨⟨by norm_num, hu⟩,
    C8_theorem (fun _ => (3 : ℚ)) (fun _ => 0) 1 2 0 (by norm_num) hu⟩

/-- C9: for raster dimensions with `width * height ≤ 2^24`, the buffer index
both kernels compute (in the embedding, exactly; in f32, exactly because the
operands and results are integers below 2^24) equals `y * width + x` and lies
strictly below `width * height`, so every write is in bounds. -/
theorem C9_theorem (width height x y : ℕ) (hx : x < width) (hy : y < height)
    (_hcap : width * height ≤ 2 ^ 24) :
    scalarIndex x y width = y * width + x ∧
      simdIndex (8 * (x / 8)) y width (x % 8) = y * width + x ∧
      y * width + x < width * height := by
  refine ⟨scalarIndex_eq x y width, ?_, pixIndex_lt hx hy⟩
  rw [simdIndex_eq]
  congr 1
  exact Nat.div_add_mod x 8

/-- C9 witness: the index arithmetic at pixel (3,0) of an 8x1 raster. -/
theorem C9_witness :
    (3 < 8 ∧ 0 < 1 ∧ 8 * 1 ≤ 2 ^ 24) ∧
      (scalarIndex 3 0 8 = 0 * 8 + 3 ∧ simdIndex (8 * (3 / 8)) 0 8 (3 % 8) = 0 * 8 + 3 ∧
        0 * 8 + 3 < 8 * 1) :=
  ⟨⟨by norm_num, by norm_num, by norm_num⟩,
    C9_theorem 8 1 3 0 (by norm_num) (by norm_num) (by norm_num)⟩

/-- C10: for every viewport, raster with width a multiple of 8, and pixel
`(x, y)`, the byte the vector kernel stores equals `min(s + 1, 255)` where `s`
is the byte the scalar kernel stores for the same pixel. -/
theorem C10_theorem (a : ComplexArea) (width height : ℕ) (f g : ℕ → ℕ) (x y : ℕ)
    (h8 : 8 ∣ width) (hx : x < width) (hy : y < height) :
    mandlebrot_simd a width height f (y * width + x) =
      min (mandlebrot a width height g (y * width + x) + 1) 255 := by
  have hj := pixIndex_lt hx hy
  have hm := pixIndex_mod x y width hx
  have hd := pixIndex_div x y width hx
  rw [mandlebrot_simd_apply a width height f _ h8 hj,
    mandlebrot_apply a width height g _ hj, hm, hd, simdPixelByte_eq]

/-- C10 witness: the relation at pixel (7,0) of an 8x1 render of `areaA`. -/
theorem C10_witness :
    ((8 : ℕ) ∣ 8 ∧ 7 < 8 ∧ 0 < 1) ∧
      mandlebrot_simd areaA 8 1 oneImage (0 * 8 + 7) =
        min (mandlebrot areaA 8 1 zeroImage (0 * 8 + 7) + 1) 255 :=
  ⟨⟨by norm_num, by norm_num, by norm_num⟩,
    C10_theorem areaA 8 1 oneImage zeroImage 7 0 (by norm_num) (by norm_num) (by norm_num)⟩
